import Mathlib

/-!
Verification of the core of the ai-research-assistant repository:
the fallback-chain LLM client with rate limiting (src/utils/rate_limiting.py),
the two-tier semantic search cache (src/tools/search_cache.py) and the
embedding providers (src/tools/embeddings.py), shallowly embedded in Lean.

Conventions used throughout the embedding:
- Python floats for wall-clock times and distances are modelled as elements
  of an arbitrary linearly ordered commutative ring (the reals are one
  instance; concrete witnesses use the integers); asyncio.sleep is modelled
  as advancing the clock by exactly the requested amount.
- Python exceptions are modelled as explicit result values; str(e) is the
  message field of the modelled error.
- The sha256 cache key is modelled by the raw pre-hash string (sha256 is
  treated as injective); json.dumps followed by json.loads is modelled as the
  identity on the stored payload.
-/

set_option maxRecDepth 40000

namespace ResearchAssistant

/-! ## String helpers (substring containment, lowercasing, slicing)

These mirror the Python primitives used by the source.  Python's str.lower
and slicing are modelled character-wise (ASCII lowering; all strings the
source matches against are ASCII). -/

/-- ASCII lowercasing of one character, mirroring Python's str.lower on the
ASCII range. -/
def lowerChar (c : Char) : Char :=
  if 'A' ≤ c ∧ c ≤ 'Z' then Char.ofNat (c.toNat + 32) else c

/-- Model of Python's str.lower. -/
def strLower (s : String) : String := ⟨s.data.map lowerChar⟩

/-- Model of Python's s[:n] slice: the first n characters. -/
def pyTake (s : String) (n : Nat) : String := ⟨s.data.take n⟩

/-- Does the needle occur at the head of the haystack? -/
def startsWithL : List Char → List Char → Bool
  | _, [] => true
  | [], _ :: _ => false
  | c :: cs, d :: ds => c = d && startsWithL cs ds

/-- Does the needle occur anywhere in the haystack?  Models Python's
substring test (needle in haystack). -/
def containsL : List Char → List Char → Bool
  | [], needle => needle.isEmpty
  | c :: t, needle => startsWithL (c :: t) needle || containsL t needle

/-- Substring containment on strings. -/
def strContains (hay needle : String) : Bool :=
  containsL hay.data needle.data

/-! ## Quota-class error detection (rate_limiting.py)

The source scans the lowercased error text for a fixed list of substrings;
the same list appears in ImprovedLLMClient.generate (twice, once for str(e)
and once for the tenacity RetryError inner exception) and in
ImprovedLLMClient.generate_stream (once, for str(e) only). -/

/-- The quota / rate-limit / auth substring patterns from rate_limiting.py. -/
def quotaTerms : List String :=
  ["quota", "rate limit", "429", "insufficient_quota",
   "insufficient balance", "402", "billing", "limit exceeded",
   "authentication_error", "invalid x-api-key", "401"]

/-- Does a lowered error message match one of the quota patterns?  Models
the any-term-in-error-msg check of the source. -/
def isQuotaMessage (msg : String) : Bool :=
  quotaTerms.any (fun term => strContains (strLower msg) term)

/-- Model of a raised Python exception: its str() text, and, when the
exception is a tenacity RetryError carrying a last_attempt, the str() text
of the wrapped inner exception. -/
structure PyError where
  message : String
  lastAttemptInner : Option String
deriving DecidableEq, Repr

/-- The full quota-class test of ImprovedLLMClient.generate:
is_quota_error (on the message) or is_retry_error (on the inner message of
a retry-exhaustion error). -/
def isQuotaOrRetryQuota (e : PyError) : Bool :=
  isQuotaMessage e.message ||
    (match e.lastAttemptInner with
     | some inner => isQuotaMessage inner
     | none => false)

/-! ## Fallback-chain LLM client (rate_limiting.py)

A client is modelled by the outcomes of its provider-specific
_generate_internal and _stream_internal methods.  set_fallback_chain links
primary -> fallback1 -> fallback2 -> ... via mutable back-pointers; the
resulting linked structure is the list with the primary at the head. -/

/-- Outcome of one call to a provider's _generate_internal. -/
inductive GenOutcome where
  | ok (response : String)
  | raise (e : PyError)
deriving DecidableEq, Repr

/-- Outcome of draining a provider's _stream_internal generator: either it
yields all its chunks and finishes, or it raises after yielding some. -/
inductive StreamOutcome where
  | chunksDone (chunks : List String)
  | failAfter (emitted : List String) (e : PyError)
deriving DecidableEq, Repr

/-- One LLM client of the chain, identified by the behaviour of its
provider-specific internal methods on a given (system, user) prompt pair. -/
structure LLMClient where
  genInternal : String → String → GenOutcome
  streamInternal : String → String → StreamOutcome

/-- Result of ImprovedLLMClient.generate / generate_stream: a returned
string, or a propagated exception. -/
inductive GenResult where
  | ok (response : String)
  | raised (e : PyError)
deriving DecidableEq, Repr

/-- Model of ImprovedLLMClient.set_fallback_chain: the chain with the
primary at the head followed by the fallbacks in order. -/
def setFallbackChain (primary : LLMClient) (fallbacks : List LLMClient) :
    List LLMClient :=
  primary :: fallbacks

/-- Fixed text of _graceful_degradation before the truncated echo. -/
def gracefulPre : String :=
  "\n        [AI Research Assistant - Service Temporarily Unavailable]\n        \n        We\x27re experiencing high demand and have temporarily exceeded our API quotas.\n        \n        Your research topic: "

/-- Fixed text of _graceful_degradation after the truncated echo. -/
def gracefulSuf : String :=
  "...\n        \n        Please try again in a few minutes, or consider:\n        1. Breaking down your research into smaller, more specific topics\n        2. Trying again during off-peak hours\n        3. Using fewer research queries per session\n        \n        We apologize for the inconvenience and are working to increase our capacity.\n        "

/-- Model of ImprovedLLMClient._graceful_degradation: the canned service
message embedding the first 100 characters of the user message. -/
def gracefulDegradation (_systemPrompt userMessage : String) : String :=
  gracefulPre ++ pyTake userMessage 100 ++ gracefulSuf

/-- Model of ImprovedLLMClient.generate over a fallback chain (primary at
the head).  Besides the result it returns how many clients of the chain had
their _generate_internal invoked (the cascade always consults a prefix of
the chain).  The rate limiter wait does not affect the returned value and
is not modelled here. -/
def generate (sys user : String) : List LLMClient → GenResult × Nat
  | [] => (.ok (gracefulDegradation sys user), 0)
  | c :: rest =>
    match c.genInternal sys user with
    | .ok s => (.ok s, 1)
    | .raise e =>
      if isQuotaOrRetryQuota e then
        match rest with
        | [] => (.ok (gracefulDegradation sys user), 1)
        | f :: rs =>
          let r := generate sys user (f :: rs)
          (r.1, r.2 + 1)
      else (.raised e, 1)

/-- Model of ImprovedLLMClient.generate_stream over a fallback chain.  On
success it returns the concatenation of the emitted chunks; on an error it
checks only str(e) against the quota patterns (generate_stream has no
retry-error unwrapping) and either restarts on the next client, discarding
the partial output, or re-raises. -/
def generateStream (sys user : String) : List LLMClient → GenResult × Nat
  | [] => (.raised ⟨"", none⟩, 0)
  | c :: rest =>
    match c.streamInternal sys user with
    | .chunksDone chunks => (.ok (String.join chunks), 1)
    | .failAfter _ e =>
      if isQuotaMessage e.message then
        match rest with
        | [] => (.raised e, 1)
        | f :: rs =>
          let r := generateStream sys user (f :: rs)
          (r.1, r.2 + 1)
      else (.raised e, 1)

/-! ## Claims C1 and C7: fallback cascade of generate -/

/-- Splitting lemma: the graceful-degradation text is the fixed prefix, the
truncated echo of the user message, and the fixed suffix. -/
theorem gracefulDegradation_split (sys user : String) :
    gracefulDegradation sys user =
      "\n        [AI Research Assistant - " ++
        ("Service Temporarily Unavailable" ++
          ("]\n        \n        We\x27re experiencing high demand and have temporarily exceeded our API quotas.\n        \n        Your research topic: " ++
            (pyTake user 100 ++ gracefulSuf))) := by
  have h : gracefulPre =
      "\n        [AI Research Assistant - " ++
        ("Service Temporarily Unavailable" ++
          "]\n        \n        We\x27re experiencing high demand and have temporarily exceeded our API quotas.\n        \n        Your research topic: ") := by decide
  simp only [gracefulDegradation, h, String.append_assoc]

/-- C1: for a chain primary -> secondary -> tertiary built by
set_fallback_chain, when the primary raises a quota-class error: if the
secondary succeeds, generate returns the secondary's response having
invoked only the first two clients (the tertiary is never invoked); if the
secondary also raises a quota-class error and the tertiary succeeds, the
tertiary's response is returned; if all three raise quota-class errors,
generate returns (never raises) the graceful-degradation placeholder,
which contains the Service Temporarily Unavailable label and the first 100
characters of the user message. -/
theorem generate_fallback_chain_cascade
    (p s t : LLMClient) (sys user : String) (ep : PyError)
    (hp : p.genInternal sys user = .raise ep)
    (hq : isQuotaOrRetryQuota ep = true) :
    (∀ rs, s.genInternal sys user = .ok rs →
      generate sys user (setFallbackChain p [s, t]) = (.ok rs, 2)) ∧
    (∀ es rt, s.genInternal sys user = .raise es →
      isQuotaOrRetryQuota es = true → t.genInternal sys user = .ok rt →
      generate sys user (setFallbackChain p [s, t]) = (.ok rt, 3)) ∧
    (∀ es et, s.genInternal sys user = .raise es →
      isQuotaOrRetryQuota es = true → t.genInternal sys user = .raise et →
      isQuotaOrRetryQuota et = true →
      generate sys user (setFallbackChain p [s, t]) =
        (.ok (gracefulDegradation sys user), 3) ∧
      (∃ pre post, gracefulDegradation sys user =
        pre ++ "Service Temporarily Unavailable" ++ post) ∧
      (∃ pre post, gracefulDegradation sys user =
        pre ++ pyTake user 100 ++ post)) := by
  refine ⟨fun rs hs => ?_, fun es rt hs hqs ht => ?_, fun es et hs hqs ht hqt => ?_⟩
  · simp [generate, setFallbackChain, hp, hq, hs]
  · simp [generate, setFallbackChain, hp, hq, hs, hqs, ht]
  · refine ⟨by simp [generate, setFallbackChain, hp, hq, hs, hqs, ht, hqt], ?_, ?_⟩
    · exact ⟨"\n        [AI Research Assistant - ", _, gracefulDegradation_split sys user⟩
    · exact ⟨gracefulPre, gracefulSuf, rfl⟩

/-- Demo client whose generation raises a quota-class error. -/
def demoQuotaClient : LLMClient :=
  ⟨fun _ _ => .raise ⟨"Error code: 429 - rate limit reached", none⟩,
   fun _ _ => .chunksDone []⟩

/-- Demo client whose generation succeeds. -/
def demoOkClient : LLMClient :=
  ⟨fun _ _ => .ok "secondary answer", fun _ _ => .chunksDone []⟩

/-- Demo client standing third in the chain. -/
def demoThirdClient : LLMClient :=
  ⟨fun _ _ => .ok "tertiary answer", fun _ _ => .chunksDone []⟩

/-- Witness for C1: a concrete 3-tier chain where the primary raises a
quota error and the secondary succeeds; generate returns the secondary's
answer, with only two clients invoked. -/
theorem generate_fallback_chain_cascade_witness :
    generate "sys" "explain quantum computing"
      (setFallbackChain demoQuotaClient [demoOkClient, demoThirdClient]) =
      (.ok "secondary answer", 2) :=
  (generate_fallback_chain_cascade demoQuotaClient demoOkClient demoThirdClient
      "sys" "explain quantum computing"
      ⟨"Error code: 429 - rate limit reached", none⟩ rfl (by decide)).1
    "secondary answer" rfl

/-- C7: when the primary raises an error matching none of the quota
patterns (neither in its message nor in a wrapped retry inner message),
generate re-raises it at once: no fallback client of the chain is invoked
(only one client is consulted) and the graceful-degradation text is not
returned (the result is a raise, not a response). -/
theorem generate_nonquota_reraises
    (p : LLMClient) (rest : List LLMClient) (sys user : String) (e : PyError)
    (hp : p.genInternal sys user = .raise e)
    (hq : isQuotaOrRetryQuota e = false) :
    generate sys user (setFallbackChain p rest) = (.raised e, 1) := by
  cases rest <;> simp [generate, setFallbackChain, hp, hq]

/-- Demo client raising an invalid-parameter (non-quota) error. -/
def demoBadParamClient : LLMClient :=
  ⟨fun _ _ => .raise ⟨"invalid parameter: temperature out of range", none⟩,
   fun _ _ => .chunksDone []⟩

/-- Witness for C7: a concrete chain whose primary raises an
invalid-parameter error; generate re-raises it without consulting the
fallback. -/
theorem generate_nonquota_reraises_witness :
    generate "sys" "topic" (setFallbackChain demoBadParamClient [demoOkClient]) =
      (.raised ⟨"invalid parameter: temperature out of range", none⟩, 1) :=
  generate_nonquota_reraises demoBadParamClient [demoOkClient] "sys" "topic"
    ⟨"invalid parameter: temperature out of range", none⟩ rfl (by decide)

/-! ## Claim C4: fallback behaviour of generate_stream

The source of generate_stream checks only str(e) against the quota
patterns (it has no retry-error unwrapping) and, when no fallback client
is left, re-raises instead of calling _graceful_degradation. -/

/-- Demo client whose stream fails with a retry-exhaustion error wrapping
a quota error: the outer message matches no quota pattern, the wrapped
inner message does. -/
def demoRetryWrapStreamClient : LLMClient :=
  ⟨fun _ _ => .ok "",
   fun _ _ => .failAfter [] ⟨"retryerror wrapping ratelimiterror",
     some "Error code: 429 - rate limit reached"⟩⟩

/-- Demo client whose stream fails with a plain quota-class error. -/
def demoStreamQuotaClient : LLMClient :=
  ⟨fun _ _ => .ok "",
   fun _ _ => .failAfter [] ⟨"Error code: 429 - rate limit reached", none⟩⟩

/-- Demo client whose stream succeeds with two chunks. -/
def demoStreamOkClient : LLMClient :=
  ⟨fun _ _ => .ok "", fun _ _ => .chunksDone ["Hel", "lo"]⟩

/-- C4 counterexample: the claim fails on the code in two concrete ways.
First, a stream error that is quota-class in the sense of generate (a
retry-exhaustion error wrapping a quota error) does not trigger the
fallback in generate_stream: with a working fallback available, the error
is re-raised after invoking only the failing client.  Second, when the
chain is exhausted (the failing client has no fallback link), the quota
error is re-raised instead of the graceful-degradation text being
returned. -/
theorem generateStream_claim_counterexample :
    (isQuotaOrRetryQuota
        ⟨"retryerror wrapping ratelimiterror",
          some "Error code: 429 - rate limit reached"⟩ = true ∧
      generateStream "sys" "topic"
          (setFallbackChain demoRetryWrapStreamClient [demoStreamOkClient]) =
        (.raised ⟨"retryerror wrapping ratelimiterror",
          some "Error code: 429 - rate limit reached"⟩, 1)) ∧
    generateStream "sys" "topic" (setFallbackChain demoStreamQuotaClient []) =
      (.raised ⟨"Error code: 429 - rate limit reached", none⟩, 1) := by
  refine ⟨⟨by decide, by decide⟩, by decide⟩

/-- C4 amended: generate_stream cascades to the next client only on errors
whose own message matches a quota pattern (it does not unwrap
retry-exhaustion errors); the restart discards any partial output of the
failing client; when the failing client has no fallback link the error is
re-raised (not turned into graceful-degradation text); non-quota errors
are re-raised immediately; a successful stream returns the concatenation
of its chunks. -/
theorem generateStream_fallback_amended
    (c f : LLMClient) (rest : List LLMClient) (sys user : String)
    (emitted : List String) (e : PyError) :
    (c.streamInternal sys user = .failAfter emitted e →
      isQuotaMessage e.message = true →
      generateStream sys user (c :: f :: rest) =
        ((generateStream sys user (f :: rest)).1,
          (generateStream sys user (f :: rest)).2 + 1)) ∧
    (c.streamInternal sys user = .failAfter emitted e →
      isQuotaMessage e.message = true →
      generateStream sys user [c] = (.raised e, 1)) ∧
    (c.streamInternal sys user = .failAfter emitted e →
      isQuotaMessage e.message = false →
      generateStream sys user (c :: rest) = (.raised e, 1)) ∧
    (∀ chunks, c.streamInternal sys user = .chunksDone chunks →
      generateStream sys user (c :: rest) = (.ok (String.join chunks), 1)) := by
  refine ⟨fun hc hq => ?_, fun hc hq => ?_, fun hc hq => ?_, fun chunks hc => ?_⟩
  · conv => lhs; rw [generateStream]
    rw [hc]; simp [hq]
  · conv => lhs; rw [generateStream]
    rw [hc]; simp [hq]
  · conv => lhs; rw [generateStream]
    rw [hc]; simp [hq]
  · conv => lhs; rw [generateStream]
    rw [hc]

/-- Witness for the amended C4: a concrete chain whose primary stream
raises a quota error and whose fallback streams two chunks; the restart
returns the fallback's full text with both clients invoked. -/
theorem generateStream_fallback_amended_witness :
    generateStream "sys" "topic"
      (setFallbackChain demoStreamQuotaClient [demoStreamOkClient]) =
      (.ok "Hello", 2) := by
  have h := (generateStream_fallback_amended demoStreamQuotaClient
    demoStreamOkClient [] "sys" "topic" []
    ⟨"Error code: 429 - rate limit reached", none⟩).1 rfl (by decide)
  rw [setFallbackChain, h]; decide

/-! ## Two-tier search cache (search_cache.py)

The SQLite tables are modelled as lists of rows in insertion order; the
sha256 cache key is modelled by the raw pre-hash string (sha256 is treated
as injective); epoch-second floats are rationals.  The embedding provider
and the sqlite-vec nearest-neighbour index are external to the claims: the
rowid/distance list produced by the MATCH query is taken as an arbitrary
oracle input, and put stores the query text in place of its embedding. -/

/-- Model of Python's str.strip: drop leading and trailing whitespace. -/
def pyStrip (s : String) : String :=
  ⟨((s.data.dropWhile Char.isWhitespace).reverse.dropWhile
      Char.isWhitespace).reverse⟩

variable {α : Type} [LinearOrderedCommRing α]

/-- Row of the search_cache exact-match table. -/
structure CacheRow (α : Type) where
  cache_key : String
  query_text : String
  search_depth : String
  max_results : ℤ
  response_json : String
  created_at : α
  expires_at : α
  hit_count : ℕ
deriving DecidableEq, Repr

/-- Row of the search_vec_meta table linking a vector rowid to a cache
key. -/
structure VecMetaRow (α : Type) where
  rowid : ℕ
  cache_key : String
  query_text : String
  search_depth : String
  max_results : ℤ
  created_at : α
  expires_at : α
deriving DecidableEq, Repr

/-- Persistent state of a SearchCache: the exact table, the vector table
(rowid paired with the embedded query, standing in for the embedding), the
vector metadata table, the last assigned rowid, and configuration. -/
structure CacheState (α : Type) where
  search_cache : List (CacheRow α)
  search_vec : List (ℕ × String)
  search_vec_meta : List (VecMetaRow α)
  next_rowid : ℕ
  ttl_hours : α
  vec_available : Bool
deriving DecidableEq, Repr

/-- A fresh cache with no rows. -/
def emptyCache (ttl : α) (vec : Bool) : CacheState α :=
  ⟨[], [], [], 0, ttl, vec⟩

/-- Model of SearchCache._make_key: the deterministic key derived from the
stripped lowercased query and the search parameters. -/
def makeKey (query search_depth : String) (max_results : ℤ) : String :=
  strLower (pyStrip query) ++ "|" ++ search_depth ++ "|" ++ toString max_results

/-- Model of SearchCache.put: upsert the exact-match row (hit_count reset
to 0), and, when the vector tier is available, append a fresh vector row
and its metadata row under a newly assigned rowid. -/
def put (st : CacheState α) (query search_depth : String) (max_results : ℤ)
    (response : String) (now : α) : CacheState α :=
  let key := makeKey query search_depth max_results
  let expires := now + st.ttl_hours * 3600
  let row : CacheRow α :=
    ⟨key, pyStrip query, search_depth, max_results, response, now, expires, 0⟩
  let table := (st.search_cache.filter (fun r => r.cache_key ≠ key)) ++ [row]
  if st.vec_available then
    let rid := st.next_rowid + 1
    { search_cache := table,
      search_vec := st.search_vec ++ [(rid, query)],
      search_vec_meta :=
        (st.search_vec_meta.filter (fun m => m.rowid ≠ rid)) ++
          [⟨rid, key, pyStrip query, search_depth, max_results, now, expires⟩],
      next_rowid := rid,
      ttl_hours := st.ttl_hours,
      vec_available := st.vec_available }
  else { st with search_cache := table }

/-- Increment the stored hit_count of the row with the given key. -/
def bumpHit (table : List (CacheRow α)) (key : String) : List (CacheRow α) :=
  table.map (fun r =>
    if r.cache_key = key then { r with hit_count := r.hit_count + 1 } else r)

/-- Model of SearchCache._get_exact: look the key up; a missing row is a
miss; an expired row is deleted and is a miss; otherwise the hit_count is
incremented and the stored payload returned. -/
def getExact (st : CacheState α) (query search_depth : String)
    (max_results : ℤ) (now : α) : Option String × CacheState α :=
  let key := makeKey query search_depth max_results
  match st.search_cache.find? (fun r => r.cache_key = key) with
  | none => (none, st)
  | some row =>
    if now > row.expires_at then
      (none, { st with
        search_cache := st.search_cache.filter (fun r => r.cache_key ≠ key) })
    else
      (some row.response_json,
        { st with search_cache := bumpHit st.search_cache key })

/-- Join of the nearest-neighbour result (rowid, L2 distance) with the
metadata table, as produced by the SQL JOIN of _get_semantic. -/
def vecCandidates (st : CacheState α) (knn : List (ℕ × α)) :
    List ((ℕ × α) × VecMetaRow α) :=
  knn.filterMap (fun rd =>
    (st.search_vec_meta.find? (fun m => m.rowid = rd.1)).map (fun m => (rd, m)))

/-- Candidate loop of SearchCache._get_semantic: skip expired candidates,
candidates beyond the distance bound, candidates whose cache row is gone,
and candidates whose stored search_depth or max_results differ from the
request; the first surviving candidate is the semantic hit. -/
def semanticScan (table : List (CacheRow α)) (search_depth : String)
    (max_results : ℤ) (now maxDist : α) :
    List ((ℕ × α) × VecMetaRow α) → Option (String × String)
  | [] => none
  | (rd, m) :: rest =>
    if now > m.expires_at then
      semanticScan table search_depth max_results now maxDist rest
    else if rd.2 > maxDist then
      semanticScan table search_depth max_results now maxDist rest
    else
      match table.find? (fun r => r.cache_key = m.cache_key) with
      | none => semanticScan table search_depth max_results now maxDist rest
      | some row =>
        if row.search_depth ≠ search_depth ∨ row.max_results ≠ max_results then
          semanticScan table search_depth max_results now maxDist rest
        else
          some (m.cache_key, row.response_json)

/-- Model of SearchCache._get_semantic: scan the joined candidates; on a
hit, increment the matched row's hit_count and return its payload.
maxDist is the distance bound the source derives from the similarity
threshold. -/
def getSemantic (st : CacheState α) (search_depth : String) (max_results : ℤ)
    (now maxDist : α) (knn : List (ℕ × α)) : Option String × CacheState α :=
  match semanticScan st.search_cache search_depth max_results now maxDist
      (vecCandidates st knn) with
  | none => (none, st)
  | some (key, resp) =>
    (some resp, { st with search_cache := bumpHit st.search_cache key })

/-- Model of SearchCache.get: exact tier first, then, when the vector tier
is available, the semantic tier. -/
def get (st : CacheState α) (query search_depth : String) (max_results : ℤ)
    (now maxDist : α) (knn : List (ℕ × α)) : Option String × CacheState α :=
  match getExact st query search_depth max_results now with
  | (some r, st') => (some r, st')
  | (none, st') =>
    if st'.vec_available then
      getSemantic st' search_depth max_results now maxDist knn
    else (none, st')

/-- Model of SearchCache.clear_expired: delete every expired exact row and
return how many were deleted; then, per expired key, look up ONE metadata
row (fetchone) and delete that rowid from the vector and metadata
tables. -/
def clearExpired (st : CacheState α) (now : α) : ℕ × CacheState α :=
  let expiredKeys :=
    (st.search_cache.filter (fun r => r.expires_at < now)).map
      (fun r => r.cache_key)
  let table := st.search_cache.filter (fun r => ¬ r.expires_at < now)
  let removed :=
    (st.search_cache.filter (fun r => r.expires_at < now)).length
  if st.vec_available ∧ expiredKeys ≠ [] then
    let vecs := expiredKeys.foldl
      (fun (acc : List (ℕ × String) × List (VecMetaRow α)) (key : String) =>
        match acc.2.find? (fun m => m.cache_key = key) with
        | none => acc
        | some m =>
          (acc.1.filter (fun v => v.1 ≠ m.rowid),
           acc.2.filter (fun mm => mm.rowid ≠ m.rowid)))
      (st.search_vec, st.search_vec_meta)
    (removed, { st with
      search_cache := table, search_vec := vecs.1,
      search_vec_meta := vecs.2 })
  else (removed, { st with search_cache := table })

/-- The stored hit_count of the row under a key, when present. -/
def hitCountOf (st : CacheState α) (key : String) : Option ℕ :=
  (st.search_cache.find? (fun r => r.cache_key = key)).map (fun r => r.hit_count)

/-! ## Claim C6: cache round-trip with key normalisation -/

omit [LinearOrderedCommRing α] in
/-- After an upsert (delete same-keyed rows, append the fresh row), looking
the key up finds exactly the fresh row. -/
theorem find?_upsert (l : List (CacheRow α)) (key : String) (row : CacheRow α)
    (hrow : row.cache_key = key) :
    ((l.filter (fun r => r.cache_key ≠ key)) ++ [row]).find?
      (fun r => r.cache_key = key) = some row := by
  induction l with
  | nil => simp [hrow]
  | cons a t ih =>
    by_cases h : a.cache_key = key
    · simpa [List.filter_cons, h] using ih
    · simpa [List.filter_cons, List.find?_cons, h] using ih

/-- The exact table after put is the old table minus the upserted key plus
the fresh row, whether or not the vector tier is available. -/
theorem put_search_cache (st : CacheState α) (q depth : String) (m : ℤ)
    (R : String) (now : α) :
    (put st q depth m R now).search_cache =
      (st.search_cache.filter (fun r => r.cache_key ≠ makeKey q depth m)) ++
        [⟨makeKey q depth m, pyStrip q, depth, m, R, now,
          now + st.ttl_hours * 3600, 0⟩] := by
  by_cases h : st.vec_available <;> simp [put, h]

/-- C6: round trip with key normalisation.  After put(q, d, m, R), a get
under any query text equal to q after stripping and lowercasing, with the
same depth and max_results, performed at or before the expiry time and
with no intervening put, returns R (the exact tier answers first, whatever
the vector-oracle input). -/
theorem cache_roundtrip (st : CacheState α) (q q2 depth : String) (m : ℤ)
    (R : String) (now now' maxDist : α) (knn : List (ℕ × α))
    (hq : strLower (pyStrip q2) = strLower (pyStrip q))
    (hfresh : ¬ now' > now + st.ttl_hours * 3600) :
    (get (put st q depth m R now) q2 depth m now' maxDist knn).1 = some R := by
  have hkey : makeKey q2 depth m = makeKey q depth m := by
    unfold makeKey; rw [hq]
  have hfind : (put st q depth m R now).search_cache.find?
      (fun r => r.cache_key = makeKey q depth m) =
      some ⟨makeKey q depth m, pyStrip q, depth, m, R, now,
        now + st.ttl_hours * 3600, 0⟩ := by
    rw [put_search_cache]; exact find?_upsert _ _ _ rfl
  have hex : getExact (put st q depth m R now) q2 depth m now' =
      (some R, { put st q depth m R now with
        search_cache := bumpHit (put st q depth m R now).search_cache
          (makeKey q depth m) }) := by
    unfold getExact
    rw [hkey]
    dsimp only
    rw [hfind]
    simp [hfresh]
  simp [get, hex]

/-- Witness for C6: a value stored under Quantum Computing is retrieved
under quantum computing one hour later (TTL 24 hours), whatever the
vector tier would have offered. -/
theorem cache_roundtrip_witness :
    (get (put (emptyCache (24 : ℤ) true) "Quantum Computing" "basic" 5 "R" 0)
      "quantum computing" "basic" 5 3600 0 []).1 = some "R" :=
  cache_roundtrip _ _ _ _ _ _ _ _ _ _ (by decide) (by decide)

/-! ## Claim C2: semantic hits never cross search-parameter boundaries -/

/-- Soundness of the semantic candidate loop: a hit always comes from a
cache row whose stored search_depth and max_results equal the request's. -/
theorem semanticScan_sound (table : List (CacheRow α)) (depth : String)
    (m : ℤ) (now maxDist : α) :
    ∀ (cands : List ((ℕ × α) × VecMetaRow α)) (key resp : String),
      semanticScan table depth m now maxDist cands = some (key, resp) →
      ∃ row, table.find? (fun r => r.cache_key = key) = some row ∧
        row.search_depth = depth ∧ row.max_results = m ∧
        resp = row.response_json := by
  intro cands
  induction cands with
  | nil => intro key resp h; simp [semanticScan] at h
  | cons c rest ih =>
    intro key resp h
    obtain ⟨rd, mm⟩ := c
    rw [semanticScan] at h
    by_cases h1 : now > mm.expires_at
    · rw [if_pos h1] at h; exact ih key resp h
    · rw [if_neg h1] at h
      by_cases h2 : rd.2 > maxDist
      · rw [if_pos h2] at h; exact ih key resp h
      · rw [if_neg h2] at h
        cases hf : table.find? (fun r => r.cache_key = mm.cache_key) with
        | none => rw [hf] at h; dsimp only at h; exact ih key resp h
        | some row =>
          rw [hf] at h
          dsimp only at h
          by_cases h3 : row.search_depth ≠ depth ∨ row.max_results ≠ m
          · rw [if_pos h3] at h; exact ih key resp h
          · rw [if_neg h3] at h
            push_neg at h3
            injection h with h4
            obtain ⟨hk, hr⟩ := Prod.mk.injEq .. |>.mp h4
            exact ⟨row, hk ▸ hf, h3.1, h3.2, hr ▸ rfl⟩

/-- A miss of the exact tier only ever removes rows: every row of the
post-miss table was already a row of the original table. -/
theorem getExact_none_state (st st2 : CacheState α) (q depth : String)
    (m : ℤ) (now : α)
    (h : getExact st q depth m now = (none, st2)) :
    ∀ row ∈ st2.search_cache, row ∈ st.search_cache := by
  unfold getExact at h
  dsimp only at h
  cases hf : st.search_cache.find?
      (fun r => r.cache_key = makeKey q depth m) with
  | none =>
    rw [hf] at h
    dsimp only at h
    injection h with h1 h2
    subst h2; exact fun row hrow => hrow
  | some row0 =>
    rw [hf] at h
    dsimp only at h
    by_cases hexp : now > row0.expires_at
    · rw [if_pos hexp] at h
      injection h with h1 h2
      subst h2
      exact fun row hrow => List.mem_of_mem_filter hrow
    · rw [if_neg hexp] at h
      injection h with h1 h2
      exact absurd h1 (by simp)

/-- Core of C2: if the exact tier misses and get still returns a payload
(necessarily via the semantic tier), the matched row of the exact table
stores exactly the requested search_depth and max_results. -/
theorem get_semantic_payload (st : CacheState α) (q depth : String)
    (m : ℤ) (now maxDist : α) (knn : List (ℕ × α)) (r : String)
    (hmiss : (getExact st q depth m now).1 = none)
    (hhit : (get st q depth m now maxDist knn).1 = some r) :
    ∃ row ∈ st.search_cache, row.search_depth = depth ∧
      row.max_results = m ∧ r = row.response_json := by
  unfold get at hhit
  rcases hE : getExact st q depth m now with ⟨g, st2⟩
  rw [hE] at hhit
  have hg : g = none := by rw [hE] at hmiss; exact hmiss
  subst hg
  dsimp only at hhit
  by_cases hv : st2.vec_available
  · rw [if_pos hv] at hhit
    unfold getSemantic at hhit
    cases hs : semanticScan st2.search_cache depth m now maxDist
        (vecCandidates st2 knn) with
    | none => rw [hs] at hhit; simp at hhit
    | some kr =>
      obtain ⟨key, resp⟩ := kr
      rw [hs] at hhit
      simp at hhit
      obtain ⟨row, hfind, hd, hm, hr⟩ :=
        semanticScan_sound st2.search_cache depth m now maxDist _ key resp hs
      have hmem2 : row ∈ st2.search_cache := List.mem_of_find?_eq_some hfind
      have hmem : row ∈ st.search_cache :=
        getExact_none_state st st2 q depth m now hE row hmem2
      exact ⟨row, hmem, hd, hm, by rw [← hhit]; exact hr⟩
  · rw [if_neg hv] at hhit; simp at hhit

/-- Keys never collide across the two depth labels of the source. -/
theorem makeKey_basic_ne_advanced (q : String) (m : ℤ) :
    makeKey q "basic" m ≠ makeKey q "advanced" m := by
  intro h
  have h2 := congrArg String.data h
  simp [makeKey, String.data_append, List.append_assoc] at h2

/-- C2: a payload served by the semantic tier always comes from a cache
row whose stored search_depth equals the requested depth and whose stored
max_results equals the requested count; in particular, a value cached
under depth basic is never served by a lookup under depth advanced, no
matter what candidates the vector index proposes, even though the query
text matches exactly. -/
theorem semantic_tier_param_scoping (α : Type) [LinearOrderedCommRing α] :
    (∀ (st : CacheState α) (q depth : String) (m : ℤ) (now maxDist : α)
        (knn : List (ℕ × α)) (r : String),
      (getExact st q depth m now).1 = none →
      (get st q depth m now maxDist knn).1 = some r →
      ∃ row ∈ st.search_cache, row.search_depth = depth ∧
        row.max_results = m ∧ r = row.response_json) ∧
    (∀ (q R : String) (m : ℤ) (ttl now now' maxDist : α)
        (knn : List (ℕ × α)),
      (get (put (emptyCache ttl true) q "basic" m R now)
          q "advanced" m now' maxDist knn).1 = none) := by
  refine ⟨fun st q depth m now maxDist knn r hmiss hhit =>
    get_semantic_payload st q depth m now maxDist knn r hmiss hhit,
    fun q R m ttl now now' maxDist knn => ?_⟩
  set st1 := put (emptyCache ttl true) q "basic" m R now with hst1
  have htable : st1.search_cache =
      [⟨makeKey q "basic" m, pyStrip q, "basic", m, R, now,
        now + ttl * 3600, 0⟩] := by
    rw [hst1, put_search_cache]; simp [emptyCache]
  have hmiss : getExact st1 q "advanced" m now' = (none, st1) := by
    unfold getExact
    have hne : makeKey q "basic" m ≠ makeKey q "advanced" m :=
      makeKey_basic_ne_advanced q m
    have hf : st1.search_cache.find?
        (fun r => r.cache_key = makeKey q "advanced" m) = none := by
      rw [htable]
      simp [List.find?, hne]
    dsimp only
    rw [hf]
  cases hres : (get st1 q "advanced" m now' maxDist knn).1 with
  | none => rfl
  | some r =>
    obtain ⟨row, hmem, hd, _, _⟩ :=
      get_semantic_payload st1 q "advanced" m now' maxDist knn r
        (by rw [hmiss]) hres
    rw [htable] at hmem
    simp at hmem
    rw [hmem] at hd
    simp at hd

/-- Witness for C2: a concrete semantic hit (paraphrased query, identical
depth and max_results, vector oracle proposing the stored row at distance
zero) is served from a row storing exactly the requested parameters. -/
theorem semantic_tier_param_scoping_witness :
    ∃ row ∈ (put (emptyCache (24 : ℤ) true) "quantum computing" "basic" 5
        "R" 0).search_cache,
      row.search_depth = "basic" ∧ row.max_results = 5 ∧
        "R" = row.response_json :=
  (semantic_tier_param_scoping ℤ).1
    (put (emptyCache (24 : ℤ) true) "quantum computing" "basic" 5 "R" 0)
    "quantum computing basics" "basic" 5 1 1 [(1, 0)] "R"
    (by decide) (by decide)

/-! ## Claim C3: clear_expired and orphaned vector rows

clear_expired deletes the expired exact rows and, per expired key, looks
up ONE metadata row (fetchone) and deletes that single rowid from the two
vector tables.  A key that was put twice has two vector rows, so one
survives the sweep as an orphan. -/

/-- A cache (TTL one hour) in which the same key was put twice at time 0:
one exact row, but two vector rows and two metadata rows for the key. -/
def c3Stale : CacheState ℤ :=
  put (put (emptyCache 1 true) "q" "basic" 5 "R1" 0) "q" "basic" 5 "R2" 0

/-- C3: at time 10000 the single exact row (expiry 3600) is expired;
clear_expired deletes it and returns 1, but one metadata row whose
cache_key refers to the deleted exact row, and one vector row, survive:
the sweep leaves an orphaned vector row when a key was put more than
once. -/
theorem clearExpired_leaves_orphan :
    (clearExpired c3Stale 10000).1 = 1 ∧
    (clearExpired c3Stale 10000).2.search_cache.filter
      (fun r => r.cache_key = makeKey "q" "basic" 5) = [] ∧
    ((clearExpired c3Stale 10000).2.search_vec_meta.filter
      (fun mrow => mrow.cache_key = makeKey "q" "basic" 5)).length = 1 ∧
    (clearExpired c3Stale 10000).2.search_vec.length = 1 := by decide

/-! ## Claim C8: hit_count monotonicity

get only ever increments a stored hit_count, but put writes the fresh row
with hit_count 0, so a put over an already-hit key lowers it. -/

/-- A cache row in the state reached by put then one exact-tier get has
hit_count 1; putting the same key again resets the stored hit_count to 0,
lowering it. -/
theorem hit_count_put_reset_counterexample :
    hitCountOf
      ((get (put (emptyCache (24 : ℤ) true) "q" "basic" 5 "R" 0)
        "q" "basic" 5 1 0 []).2) (makeKey "q" "basic" 5) = some 1 ∧
    hitCountOf
      (put ((get (put (emptyCache (24 : ℤ) true) "q" "basic" 5 "R" 0)
        "q" "basic" 5 1 0 []).2) "q" "basic" 5 "R2" 2)
      (makeKey "q" "basic" 5) = some 0 := by decide

/-- The table-to-table relation under which stored hit counts never
decrease for any key whose row survives. -/
def HitMono (l l2 : List (CacheRow α)) : Prop :=
  ∀ (key : String) (row2 : CacheRow α),
    l2.find? (fun r => r.cache_key = key) = some row2 →
    ∃ row, l.find? (fun r => r.cache_key = key) = some row ∧
      row.hit_count ≤ row2.hit_count

omit [LinearOrderedCommRing α] in
theorem hitMono_refl (l : List (CacheRow α)) : HitMono l l :=
  fun _ row2 h => ⟨row2, h, le_refl _⟩

omit [LinearOrderedCommRing α] in
theorem hitMono_trans {l1 l2 l3 : List (CacheRow α)}
    (h12 : HitMono l1 l2) (h23 : HitMono l2 l3) : HitMono l1 l3 := by
  intro key row3 h3
  obtain ⟨row2, h2, hle23⟩ := h23 key row3 h3
  obtain ⟨row1, h1, hle12⟩ := h12 key row2 h2
  exact ⟨row1, h1, le_trans hle12 hle23⟩

omit [LinearOrderedCommRing α] in
/-- A Bool-level lookup predicate is blind to a bump of any row. -/
theorem bump_key_eq (a : CacheRow α) (k : String) :
    (if a.cache_key = k then
      { a with hit_count := a.hit_count + 1 } else a).cache_key =
      a.cache_key := by
  by_cases h2 : a.cache_key = k <;> simp [h2]

omit [LinearOrderedCommRing α] in
/-- Looking up a key after bumpHit finds the same row, bumped when it is
the bumped key. -/
theorem find?_bumpHit (l : List (CacheRow α)) (k key : String) :
    (bumpHit l k).find? (fun r => r.cache_key = key) =
      (l.find? (fun r => r.cache_key = key)).map
        (fun r => if r.cache_key = k then
          { r with hit_count := r.hit_count + 1 } else r) := by
  induction l with
  | nil => rfl
  | cons a t ih =>
    rw [bumpHit, List.map_cons]
    by_cases h : a.cache_key = key
    · rw [List.find?_cons_of_pos _
          (by rw [decide_eq_true_eq, bump_key_eq]; exact h),
        List.find?_cons_of_pos _ (by simp [h])]
      rfl
    · rw [List.find?_cons_of_neg _
          (by rw [decide_eq_true_eq, bump_key_eq]; exact h),
        List.find?_cons_of_neg _ (by simp [h])]
      exact ih

omit [LinearOrderedCommRing α] in
theorem hitMono_bump (l : List (CacheRow α)) (k : String) :
    HitMono l (bumpHit l k) := by
  intro key row2 h
  rw [find?_bumpHit] at h
  cases hf : l.find? (fun r => r.cache_key = key) with
  | none => rw [hf] at h; simp at h
  | some row =>
    rw [hf] at h
    simp at h
    refine ⟨row, rfl, ?_⟩
    rw [← h]
    by_cases h2 : row.cache_key = k <;> simp [h2]

/-- When the lookup predicate entails the filter predicate, a find? hit on
the filtered list is a find? hit on the original list. -/
theorem find?_filter_of_imp {β : Type} (p q : β → Bool)
    (himp : ∀ x, p x = true → q x = true) :
    ∀ (l : List β) (row : β), (l.filter q).find? p = some row →
      l.find? p = some row := by
  intro l
  induction l with
  | nil => intro row h; simp at h
  | cons a t ih =>
    intro row h
    by_cases hq : q a = true
    · rw [List.filter_cons_of_pos hq] at h
      by_cases hp : p a = true
      · rw [List.find?_cons_of_pos _ hp] at h
        rw [List.find?_cons_of_pos _ hp]
        exact h
      · rw [List.find?_cons_of_neg _ hp] at h
        rw [List.find?_cons_of_neg _ hp]
        exact ih row h
    · rw [List.filter_cons_of_neg hq] at h
      have hp : ¬ p a = true := fun hpa => hq (himp a hpa)
      rw [List.find?_cons_of_neg _ hp]
      exact ih row h

omit [LinearOrderedCommRing α] in
theorem hitMono_filter (l : List (CacheRow α)) (k0 : String) :
    HitMono l (l.filter (fun r => r.cache_key ≠ k0)) := by
  intro key row2 h
  have hmem := List.mem_of_find?_eq_some h
  have hpred : row2.cache_key = key := by
    have := List.find?_some h
    simpa using this
  have hne : key ≠ k0 := by
    have h2 := (List.mem_filter.mp hmem).2
    simp at h2
    rw [← hpred]; exact h2
  refine ⟨row2, ?_, le_refl _⟩
  refine find?_filter_of_imp _ _ ?_ l row2 h
  intro x hx
  simp at hx ⊢
  rw [hx]; exact hne

/-- The exact tier only preserves or increments stored hit counts. -/
theorem getExact_hitMono (st st2 : CacheState α) (q depth : String)
    (m : ℤ) (now : α) (g : Option String)
    (h : getExact st q depth m now = (g, st2)) :
    HitMono st.search_cache st2.search_cache := by
  unfold getExact at h
  dsimp only at h
  cases hf : st.search_cache.find?
      (fun r => r.cache_key = makeKey q depth m) with
  | none =>
    rw [hf] at h
    dsimp only at h
    injection h with h1 h2
    rw [← h2]
    exact hitMono_refl _
  | some row0 =>
    rw [hf] at h
    dsimp only at h
    by_cases hexp : now > row0.expires_at
    · rw [if_pos hexp] at h
      injection h with h1 h2
      rw [← h2]
      exact hitMono_filter _ _
    · rw [if_neg hexp] at h
      injection h with h1 h2
      rw [← h2]
      exact hitMono_bump _ _

/-- The semantic tier only preserves or increments stored hit counts. -/
theorem getSemantic_hitMono (st st2 : CacheState α) (depth : String)
    (m : ℤ) (now maxDist : α) (knn : List (ℕ × α)) (g : Option String)
    (h : getSemantic st depth m now maxDist knn = (g, st2)) :
    HitMono st.search_cache st2.search_cache := by
  unfold getSemantic at h
  cases hs : semanticScan st.search_cache depth m now maxDist
      (vecCandidates st knn) with
  | none =>
    rw [hs] at h
    injection h with h1 h2
    rw [← h2]
    exact hitMono_refl _
  | some kr =>
    obtain ⟨key, resp⟩ := kr
    rw [hs] at h
    injection h with h1 h2
    rw [← h2]
    exact hitMono_bump _ _

/-- C8 amended: across any get, a key whose row survives never sees its
stored hit_count decrease (get only increments or deletes); put, however,
replaces the row for its key with a fresh row whose hit_count is 0 (a
reset, as the counterexample shows, not an increment). -/
theorem hit_count_amended (α : Type) [LinearOrderedCommRing α] :
    (∀ (st : CacheState α) (q depth : String) (m : ℤ) (now maxDist : α)
        (knn : List (ℕ × α)) (key : String) (row2 : CacheRow α),
      (get st q depth m now maxDist knn).2.search_cache.find?
        (fun r => r.cache_key = key) = some row2 →
      ∃ row, st.search_cache.find? (fun r => r.cache_key = key) = some row ∧
        row.hit_count ≤ row2.hit_count) ∧
    (∀ (st : CacheState α) (q depth : String) (m : ℤ) (R : String) (now : α),
      hitCountOf (put st q depth m R now) (makeKey q depth m) = some 0) := by
  constructor
  · intro st q depth m now maxDist knn key row2 h
    have hmono : HitMono st.search_cache
        (get st q depth m now maxDist knn).2.search_cache := by
      unfold get
      rcases hE : getExact st q depth m now with ⟨g, st2⟩
      have hex := getExact_hitMono st st2 q depth m now g hE
      cases g with
      | some r => exact hex
      | none =>
        dsimp only
        by_cases hv : st2.vec_available
        · rw [if_pos hv]
          rcases hS : getSemantic st2 depth m now maxDist knn with ⟨g2, st3⟩
          exact hitMono_trans hex
            (getSemantic_hitMono st2 st3 depth m now maxDist knn g2 hS)
        · rw [if_neg hv]
          exact hex
    exact hmono key row2 h
  · intro st q depth m R now
    unfold hitCountOf
    rw [put_search_cache,
      find?_upsert st.search_cache (makeKey q depth m)
        ⟨makeKey q depth m, pyStrip q, depth, m, R, now,
          now + st.ttl_hours * 3600, 0⟩ rfl]
    rfl

/-- Witness for the amended C8: after put then an exact-tier hit, the
surviving row's hit_count (one) is no smaller than the stored hit_count it
had before the get. -/
theorem hit_count_amended_witness :
    ∃ row, (put (emptyCache (24 : ℤ) true) "q" "basic" 5 "R" 0).search_cache.find?
        (fun r => r.cache_key = makeKey "q" "basic" 5) = some row ∧
      row.hit_count ≤ 1 := by
  have h := (hit_count_amended ℤ).1
    (put (emptyCache (24 : ℤ) true) "q" "basic" 5 "R" 0)
    "q" "basic" 5 1 0 [] (makeKey "q" "basic" 5)
    ⟨makeKey "q" "basic" 5, "q", "basic", 5, "R", 0, 86400, 1⟩ (by decide)
  obtain ⟨row, hrow, hle⟩ := h
  exact ⟨row, hrow, hle⟩

/-! ## Claim C9: embedding provider selection (embeddings.py)

create_embedding_provider picks between the hosted (OpenAI) and hash
providers.  The outcomes of the two external effects are inputs of the
model: construct is the outcome of OpenAIEmbedding(api_key=...) (import of
the openai package plus client construction) and validate the outcome of
the trial call ep.embed("test"). -/

/-- Which provider the factory returned. -/
inductive ProviderKind where
  | openaiProvider
  | hashProvider
deriving DecidableEq, Repr

/-- Result of the factory: a provider, or a propagated exception. -/
inductive FactoryResult where
  | ok (p : ProviderKind)
  | raised (e : String)
deriving DecidableEq, Repr

/-- Python truthiness of the optional api key argument. -/
def pyTruthy (key : Option String) : Bool :=
  match key with
  | none => false
  | some s => !s.isEmpty

/-- Model of create_embedding_provider.  The provider argument is compared
against the literals openai and auto exactly as in the source; only the
auto branch guards construction and the trial call with a try/except
falling back to the hash provider. -/
def createEmbeddingProvider (openai_api_key : Option String)
    (provider : String) (construct : Except String Unit)
    (validate : Except String Unit) : FactoryResult :=
  if provider = "openai" ∧ pyTruthy openai_api_key then
    match construct with
    | .ok _ => .ok .openaiProvider
    | .error e => .raised e
  else if provider = "auto" ∧ pyTruthy openai_api_key then
    match construct with
    | .error _ => .ok .hashProvider
    | .ok _ =>
      match validate with
      | .error _ => .ok .hashProvider
      | .ok _ => .ok .openaiProvider
  else .ok .hashProvider

/-- C9 counterexample: with a hosted key supplied and the
provider-selection argument openai, a construction failure (for example a
missing openai dependency) propagates out of create_embedding_provider as
an exception, contradicting the claim that it never raises when a hosted
key is supplied, for any provider-selection argument. -/
theorem createEmbeddingProvider_claim_counterexample :
    createEmbeddingProvider (some "sk-test") "openai"
      (.error "No module named openai") (.ok ()) =
      .raised "No module named openai" := by decide

/-- C9 amended: only in auto mode is the hosted provider guarded: with a
truthy key and provider auto, the factory constructs the hosted provider,
validates it with the one trial embed call, falls back to the hash
provider on any construction or validation failure, and never raises;
with provider openai and a truthy key it constructs the hosted provider
without validation and propagates construction failures; with a
non-truthy key (or any other provider string) it returns the hash
provider. -/
theorem createEmbeddingProvider_amended (key : Option String)
    (construct validate : Except String Unit) :
    (pyTruthy key = true →
      (∃ p, createEmbeddingProvider key "auto" construct validate = .ok p) ∧
      (createEmbeddingProvider key "auto" construct validate =
          .ok .openaiProvider ↔
        construct = .ok () ∧ validate = .ok ())) ∧
    (pyTruthy key = true →
      (construct = .ok () →
        createEmbeddingProvider key "openai" construct validate =
          .ok .openaiProvider) ∧
      (∀ e, construct = .error e →
        createEmbeddingProvider key "openai" construct validate =
          .raised e)) ∧
    (∀ provider, pyTruthy key = false →
      createEmbeddingProvider key provider construct validate =
        .ok .hashProvider) ∧
    (∀ provider, provider ≠ "openai" → provider ≠ "auto" →
      createEmbeddingProvider key provider construct validate =
        .ok .hashProvider) := by
  refine ⟨fun hk => ⟨?_, ?_⟩, fun hk => ⟨fun hc => ?_, fun e hc => ?_⟩,
    fun provider hk => ?_, fun provider h1 h2 => ?_⟩
  · cases construct with
    | ok u => cases validate with
      | ok v => exact ⟨.openaiProvider, by simp [createEmbeddingProvider, hk]⟩
      | error e => exact ⟨.hashProvider, by simp [createEmbeddingProvider, hk]⟩
    | error e => exact ⟨.hashProvider, by simp [createEmbeddingProvider, hk]⟩
  · cases construct with
    | ok u => cases validate with
      | ok v => simp [createEmbeddingProvider, hk]
      | error e => simp [createEmbeddingProvider, hk]
    | error e => simp [createEmbeddingProvider, hk]
  · simp [createEmbeddingProvider, hk, hc]
  · simp [createEmbeddingProvider, hk, hc]
  · simp [createEmbeddingProvider, hk]
  · simp [createEmbeddingProvider, h1, h2]

/-- Witness for the amended C9: in auto mode with a key whose trial call
fails, the factory falls back to the hash provider without raising. -/
theorem createEmbeddingProvider_amended_witness :
    ∃ p, createEmbeddingProvider (some "sk-test") "auto" (.ok ())
      (.error "401 invalid api key") = .ok p :=
  ((createEmbeddingProvider_amended (some "sk-test") (.ok ())
    (.error "401 invalid api key")).1 (by decide)).1

/-! ## Claim C10: hash embedding of token-less inputs (embeddings.py)

HashEmbedding.embed tokenizes (lowercase, strip punctuation, unigrams +
bigrams + trigrams), hashes every token with MD5 to a position (first
eight hex digits mod dims) and sign (parity of the next eight hex
digits), accumulates plus or minus one per token, and L2-normalizes when
the accumulated norm is positive.  MD5 is implemented here in full so
that concrete embeddings are evaluated exactly as the source computes
them; token bytes are the ASCII code points (tokens are alphanumeric). -/

/-- Per-round left-rotation amounts of MD5. -/
def md5S : List ℕ :=
  [7, 12, 17, 22, 7, 12, 17, 22, 7, 12, 17, 22, 7, 12, 17, 22,
   5, 9, 14, 20, 5, 9, 14, 20, 5, 9, 14, 20, 5, 9, 14, 20,
   4, 11, 16, 23, 4, 11, 16, 23, 4, 11, 16, 23, 4, 11, 16, 23,
   6, 10, 15, 21, 6, 10, 15, 21, 6, 10, 15, 21, 6, 10, 15, 21]

/-- Sine-derived round constants of MD5. -/
def md5K : List ℕ :=
  [0xd76aa478, 0xe8c7b756, 0x242070db, 0xc1bdceee,
   0xf57c0faf, 0x4787c62a, 0xa8304613, 0xfd469501,
   0x698098d8, 0x8b44f7af, 0xffff5bb1, 0x895cd7be,
   0x6b901122, 0xfd987193, 0xa679438e, 0x49b40821,
   0xf61e2562, 0xc040b340, 0x265e5a51, 0xe9b6c7aa,
   0xd62f105d, 0x02441453, 0xd8a1e681, 0xe7d3fbc8,
   0x21e1cde6, 0xc33707d6, 0xf4d50d87, 0x455a14ed,
   0xa9e3e905, 0xfcefa3f8, 0x676f02d9, 0x8d2a4c8a,
   0xfffa3942, 0x8771f681, 0x6d9d6122, 0xfde5380c,
   0xa4beea44, 0x4bdecfa9, 0xf6bb4b60, 0xbebfbc70,
   0x289b7ec6, 0xeaa127fa, 0xd4ef3085, 0x04881d05,
   0xd9d4d039, 0xe6db99e5, 0x1fa27cf8, 0xc4ac5665,
   0xf4292244, 0x432aff97, 0xab9423a7, 0xfc93a039,
   0x655b59c3, 0x8f0ccc92, 0xffeff47d, 0x85845dd1,
   0x6fa87e4f, 0xfe2ce6e0, 0xa3014314, 0x4e0811a1,
   0xf7537e82, 0xbd3af235, 0x2ad7d2bb, 0xeb86d391]

/-- Truncation to a 32-bit word. -/
def m32 (x : ℕ) : ℕ := x % 4294967296

/-- Bitwise complement within 32 bits. -/
def mnot (x : ℕ) : ℕ := Nat.xor x 4294967295

/-- 32-bit left rotation. -/
def rotl (x c : ℕ) : ℕ := m32 ((x <<< c) ||| (x >>> (32 - c)))

/-- The k low-order bytes of a number, least significant first. -/
def leBytes : ℕ → ℕ → List ℕ
  | _, 0 => []
  | n, k + 1 => (n % 256) :: leBytes (n / 256) k

/-- MD5 padding: a 0x80 byte, zeros to 56 mod 64, and the 64-bit
little-endian bit length. -/
def padMsg (msg : List ℕ) : List ℕ :=
  let len := msg.length
  let numZeros := (119 - len % 64) % 64
  msg ++ [128] ++ List.replicate numZeros 0 ++
    leBytes ((len * 8) % 18446744073709551616) 8

/-- Bytes to 32-bit little-endian words. -/
def toWordsLE : List ℕ → List ℕ
  | b0 :: b1 :: b2 :: b3 :: rest =>
    (b0 + b1 * 256 + b2 * 65536 + b3 * 16777216) :: toWordsLE rest
  | _ => []

/-- One of the 64 MD5 rounds over the current block's words M. -/
def md5Round (M : List ℕ) (st : ℕ × ℕ × ℕ × ℕ) (i : ℕ) : ℕ × ℕ × ℕ × ℕ :=
  let (A, B, C, D) := st
  let Fg : ℕ × ℕ :=
    if i < 16 then ((B &&& C) ||| (mnot B &&& D), i)
    else if i < 32 then ((D &&& B) ||| (mnot D &&& C), (5 * i + 1) % 16)
    else if i < 48 then (Nat.xor (Nat.xor B C) D, (3 * i + 5) % 16)
    else (Nat.xor C (B ||| mnot D), (7 * i) % 16)
  let F2 := m32 (Fg.1 + A + md5K.getD i 0 + M.getD Fg.2 0)
  (D, m32 (B + rotl F2 (md5S.getD i 0)), B, C)

/-- Process one 16-word block. -/
def md5Block (h : ℕ × ℕ × ℕ × ℕ) (M : List ℕ) : ℕ × ℕ × ℕ × ℕ :=
  let (a0, b0, c0, d0) := h
  let r := (List.range 64).foldl (md5Round M) (a0, b0, c0, d0)
  (m32 (a0 + r.1), m32 (b0 + r.2.1), m32 (c0 + r.2.2.1), m32 (d0 + r.2.2.2))

/-- Process the given number of 16-word blocks. -/
def md5Process (h : ℕ × ℕ × ℕ × ℕ) : ℕ → List ℕ → ℕ × ℕ × ℕ × ℕ
  | 0, _ => h
  | fuel + 1, ws => md5Process (md5Block h (ws.take 16)) fuel (ws.drop 16)

/-- The four state words of the MD5 digest of a byte string (the digest is
their little-endian serialization). -/
def md5Words (msg : List ℕ) : ℕ × ℕ × ℕ × ℕ :=
  let padded := padMsg msg
  md5Process (0x67452301, 0xefcdab89, 0x98badcfe, 0x10325476)
    (padded.length / 64) (toWordsLE padded)

/-- Byte swap of a 32-bit word: the value of the word's bytes read in
print (big-endian) order, as Python's int(hexdigest[a:b], 16) does. -/
def bswap32 (x : ℕ) : ℕ :=
  (x % 256) * 16777216 + ((x / 256) % 256) * 65536 +
    ((x / 65536) % 256) * 256 + (x / 16777216) % 256

/-- Position and sign of a token per HashEmbedding.embed: position from
the first eight hex digits of the MD5 hexdigest mod dims, sign positive
when the next eight hex digits are even. -/
def hashPosSign (token : String) (dims : ℕ) : ℕ × Bool :=
  let h := md5Words (token.data.map Char.toNat)
  (bswap32 h.1 % dims, bswap32 h.2.1 % 2 == 0)

/-- Split a character list on whitespace runs, dropping empty pieces,
as Python's str.split() does. -/
def splitWSAux : List Char → List Char → List (List Char)
  | [], acc => if acc.isEmpty then [] else [acc.reverse]
  | c :: rest, acc =>
    if c.isWhitespace then
      if acc.isEmpty then splitWSAux rest []
      else acc.reverse :: splitWSAux rest []
    else splitWSAux rest (c :: acc)

/-- The words of HashEmbedding._tokenize: lowercase, replace every
non-alphanumeric non-space character by a space, split on whitespace. -/
def pyWords (text : String) : List String :=
  let cleaned := (text.data.map lowerChar).map
    (fun c => if c.isAlphanum || c.isWhitespace then c else ' ')
  (splitWSAux cleaned []).map String.mk

/-- Model of HashEmbedding._tokenize: unigrams, bigrams and trigrams
joined with underscores. -/
def hashTokenize (text : String) : List String :=
  let ws := pyWords text
  ws ++ (ws.zip ws.tail).map (fun p => p.1 ++ "_" ++ p.2) ++
    (ws.zip (ws.tail.zip ws.tail.tail)).map
      (fun p => p.1 ++ "_" ++ p.2.1 ++ "_" ++ p.2.2)

/-- The accumulated (pre-normalization) embedding vector of
HashEmbedding.embed: plus or minus one added at each token's hashed
position, starting from the zero vector. -/
def embedRawVec (dims : ℕ) (text : String) : List ℤ :=
  (hashTokenize text).foldl (fun vec token =>
    let ps := hashPosSign token dims
    vec.set ps.1 (vec.getD ps.1 0 + if ps.2 then 1 else -1))
    (List.replicate dims (0 : ℤ))

/-- The default embedding width of the hash provider. -/
def HASH_DIMENSIONS : ℕ := 256

omit [LinearOrderedCommRing α] in
/-- getD of a replicate of the default value is the default value. -/
theorem getD_replicate {γ : Type} (n i : ℕ) (a : γ) :
    (List.replicate n a).getD i a = a := by
  induction n generalizing i with
  | zero => rfl
  | succ k ih =>
    cases i with
    | zero => rfl
    | succ j => exact ih j

/-- Normalization over the reals: dividing by the norm yields a unit
vector exactly when the vector is nonzero; the zero vector stays zero. -/
theorem normalize_unit_iff (d : ℕ) (v : EuclideanSpace ℝ (Fin d)) :
    ‖(if 0 < ‖v‖ then ‖v‖⁻¹ • v else v)‖ = 1 ↔ v ≠ 0 := by
  by_cases hv : v = 0
  · subst hv
    simp
  · have hpos : 0 < ‖v‖ := norm_pos_iff.mpr hv
    rw [if_pos hpos, norm_smul, norm_inv, norm_norm,
      inv_mul_cancel₀ (ne_of_gt hpos)]
    simpa using hv

/-- The accumulated vector always has the configured length. -/
theorem embedRawVec_length (dims : ℕ) (text : String) :
    (embedRawVec dims text).length = dims := by
  unfold embedRawVec
  generalize hashTokenize text = tokens
  have h : ∀ (ts : List String) (l : List ℤ),
      (ts.foldl (fun vec token =>
        let ps := hashPosSign token dims
        vec.set ps.1 (vec.getD ps.1 0 + if ps.2 then 1 else -1)) l).length =
        l.length := by
    intro ts
    induction ts with
    | nil => intro l; rfl
    | cons t rest ih =>
      intro l
      rw [List.foldl_cons, ih]
      exact List.length_set ..
  rw [h]
  exact List.length_replicate ..

/-- The real vector read off the accumulated list is zero exactly when
the list is the all-zero list. -/
theorem embedRawVec_zero_iff (dims : ℕ) (text : String) :
    (fun i : Fin dims =>
        (((embedRawVec dims text).getD i 0 : ℤ) : ℝ)) =
      (0 : EuclideanSpace ℝ (Fin dims)) ↔
      embedRawVec dims text = List.replicate dims 0 := by
  constructor
  · intro h
    rw [List.eq_replicate_iff]
    refine ⟨embedRawVec_length dims text, fun b hb => ?_⟩
    obtain ⟨i, hi, hgetb⟩ := List.mem_iff_getElem.mp hb
    have hi2 : i < dims := by rw [← embedRawVec_length dims text]; exact hi
    have h2 := congrFun h ⟨i, hi2⟩
    have h3 : ((embedRawVec dims text).getD i 0 : ℝ) = 0 := h2
    have h4 : (embedRawVec dims text).getD i 0 = 0 := by
      exact_mod_cast h3
    rw [List.getD_eq_getElem?_getD, List.getElem?_eq_getElem hi] at h4
    rw [← hgetb]
    simpa using h4
  · intro h
    funext i
    show (((embedRawVec dims text).getD i 0 : ℤ) : ℝ) = 0
    rw [h, getD_replicate]
    exact Int.cast_zero

set_option maxRecDepth 1000000 in
/-- C10 counterexample: the input consisting of the word aiwsh three
times tokenizes to six tokens, yet all six MD5-hashed contributions
cancel (the unigram hashes to position 210 with positive sign three
times, the bigram to 210 with negative sign twice, the trigram to 210
with negative sign once), so the accumulated vector is the zero vector
and embed's output has norm zero, not one: an input with at least one
alphanumeric token whose output is not an L2-normalized unit vector,
refuting the claimed equivalence. -/
theorem hash_embedding_claim_counterexample :
    hashTokenize "aiwsh aiwsh aiwsh" ≠ [] ∧
    embedRawVec HASH_DIMENSIONS "aiwsh aiwsh aiwsh" =
      List.replicate HASH_DIMENSIONS 0 ∧
    (‖(let v : EuclideanSpace ℝ (Fin HASH_DIMENSIONS) := fun i =>
        (((embedRawVec HASH_DIMENSIONS "aiwsh aiwsh aiwsh").getD i 0 : ℤ) : ℝ);
      if 0 < ‖v‖ then ‖v‖⁻¹ • v else v)‖ ≠ 1) := by
  have hraw : embedRawVec HASH_DIMENSIONS "aiwsh aiwsh aiwsh" =
      List.replicate HASH_DIMENSIONS 0 := by decide
  refine ⟨by decide, hraw, ?_⟩
  intro hcon
  rw [normalize_unit_iff] at hcon
  exact hcon ((embedRawVec_zero_iff HASH_DIMENSIONS "aiwsh aiwsh aiwsh").mpr hraw)

/-- C10 amended: an input whose tokenization is empty (no alphanumeric
characters) always embeds to the all-zero accumulated vector, and the
final output of embed is an L2-normalized unit vector exactly when the
accumulated vector is nonzero; having at least one token is necessary
for a unit output but, by the counterexample, not sufficient (hash
cancellation can zero the accumulated vector). -/
theorem hash_embedding_amended (dims : ℕ) (text : String) :
    (hashTokenize text = [] →
      embedRawVec dims text = List.replicate dims 0) ∧
    (‖(let v : EuclideanSpace ℝ (Fin dims) := fun i =>
        (((embedRawVec dims text).getD i 0 : ℤ) : ℝ);
      if 0 < ‖v‖ then ‖v‖⁻¹ • v else v)‖ = 1 ↔
      embedRawVec dims text ≠ List.replicate dims 0) ∧
    (‖(let v : EuclideanSpace ℝ (Fin dims) := fun i =>
        (((embedRawVec dims text).getD i 0 : ℤ) : ℝ);
      if 0 < ‖v‖ then ‖v‖⁻¹ • v else v)‖ = 1 →
      hashTokenize text ≠ []) := by
  have hpart1 : hashTokenize text = [] →
      embedRawVec dims text = List.replicate dims 0 := by
    intro h
    unfold embedRawVec
    rw [h, List.foldl_nil]
  have hpart2 : ‖(let v : EuclideanSpace ℝ (Fin dims) := fun i =>
        (((embedRawVec dims text).getD i 0 : ℤ) : ℝ);
      if 0 < ‖v‖ then ‖v‖⁻¹ • v else v)‖ = 1 ↔
      embedRawVec dims text ≠ List.replicate dims 0 := by
    rw [normalize_unit_iff]
    exact not_congr (embedRawVec_zero_iff dims text)
  exact ⟨hpart1, hpart2, fun hu ht => (hpart2.mp hu) (hpart1 ht)⟩

set_option maxRecDepth 1000000 in
/-- Witness for the amended C10: a punctuation-only input has no tokens
and embeds to the all-zero vector of the default width. -/
theorem hash_embedding_amended_witness :
    embedRawVec HASH_DIMENSIONS "?!..." =
      List.replicate HASH_DIMENSIONS 0 :=
  (hash_embedding_amended HASH_DIMENSIONS "?!...").1 (by decide)

/-! ## Claim C5: RateLimitManager sliding-window ceiling

wait_if_needed prunes entries older than the window from the two
timestamp lists, suspends until the oldest pruned entry ages out when a
list is at capacity, and then appends the current time to both lists.
Sleeping is modelled as advancing the clock by exactly the requested
amount; the hour wait is computed from the pre-sleep clock exactly as in
the source, and both appends use the post-sleep clock.  The ghost field
hist records every appended timestamp, in order. -/

/-- Configuration of RateLimitManager. -/
structure RLConfig where
  requests_per_minute : ℕ
  requests_per_hour : ℕ

/-- State of a RateLimitManager plus the current clock and the ghost
history of all recorded timestamps. -/
structure RLState (α : Type) where
  minute_requests : List α
  hour_requests : List α
  now : α
  hist : List α

/-- A fresh rate limiter at clock t0. -/
def initRL (t0 : α) : RLState α :=
  ⟨[], [], t0, []⟩

/-- The wait computed for one window: zero below capacity, otherwise the
time until the oldest in-window entry ages out (clamped at zero). -/
def waitFor (limit : ℕ) (window : α) (cleaned : List α) (now : α) : α :=
  if limit ≤ cleaned.length then
    let wt := window - (now - cleaned.headD 0)
    if 0 < wt then wt else 0
  else 0

/-- The minute list after pruning entries older than sixty seconds. -/
def cleanedMin (s : RLState α) : List α :=
  s.minute_requests.filter (fun t => s.now - 60 < t)

/-- The hour list after pruning entries older than one hour. -/
def cleanedHr (s : RLState α) : List α :=
  s.hour_requests.filter (fun t => s.now - 3600 < t)

/-- The post-sleep clock at which the request is recorded: the entry
clock plus the minute wait plus the hour wait (the hour wait computed
from the pre-sleep clock, exactly as in the source). -/
def recordedTime (cfg : RLConfig) (s : RLState α) : α :=
  s.now + waitFor cfg.requests_per_minute 60 (cleanedMin s) s.now +
    waitFor cfg.requests_per_hour 3600 (cleanedHr s) s.now

/-- Model of RateLimitManager.wait_if_needed: prune both lists, wait for
the minute window and then for the hour window, then record the
post-sleep time in both lists.  Returns the new state and the total time
slept. -/
def waitIfNeeded (cfg : RLConfig) (s : RLState α) : RLState α × α :=
  (⟨cleanedMin s ++ [recordedTime cfg s],
    cleanedHr s ++ [recordedTime cfg s],
    recordedTime cfg s,
    s.hist ++ [recordedTime cfg s]⟩,
   waitFor cfg.requests_per_minute 60 (cleanedMin s) s.now +
     waitFor cfg.requests_per_hour 3600 (cleanedHr s) s.now)

/-- Let the caller's clock advance between calls. -/
def advanceBy (s : RLState α) (g : α) : RLState α :=
  { s with now := s.now + g }

/-- Run a sequence of wait_if_needed calls, the clock advancing by the
given nonnegative gap before each call. -/
def runCalls (cfg : RLConfig) (s : RLState α) : List α → RLState α
  | [] => s
  | g :: gs => runCalls cfg (waitIfNeeded cfg (advanceBy s g)).1 gs

/-- The sleep durations of a sequence of calls. -/
def waitsOf (cfg : RLConfig) (s : RLState α) : List α → List α
  | [] => []
  | g :: gs =>
    (waitIfNeeded cfg (advanceBy s g)).2 ::
      waitsOf cfg (waitIfNeeded cfg (advanceBy s g)).1 gs

/-- How many recorded timestamps fall inside the trailing window of
width w ending at T. -/
def countWindow (hist : List α) (w T : α) : ℕ :=
  hist.countP (fun x => decide (T - w < x ∧ x ≤ T))

/-- Invariant of the rate limiter: all recorded timestamps are in the
past, each list is the history filtered at some past cutoff, and no
trailing window of either width ever holds more than its ceiling. -/
structure RLInv (cfg : RLConfig) (s : RLState α) : Prop where
  le_now : ∀ x ∈ s.hist, x ≤ s.now
  minute_eq : ∃ c, c ≤ s.now ∧
    s.minute_requests = s.hist.filter (fun t => decide (c - 60 < t))
  hour_eq : ∃ c, c ≤ s.now ∧
    s.hour_requests = s.hist.filter (fun t => decide (c - 3600 < t))
  win_minute : ∀ T, countWindow s.hist 60 T ≤ cfg.requests_per_minute
  win_hour : ∀ T, countWindow s.hist 3600 T ≤ cfg.requests_per_hour

/-- The computed wait is never negative. -/
theorem waitFor_nonneg (limit : ℕ) (window : α) (cleaned : List α)
    (now : α) : 0 ≤ waitFor limit window cleaned now := by
  unfold waitFor
  by_cases h : limit ≤ cleaned.length
  · rw [if_pos h]
    dsimp only
    by_cases h2 : 0 < window - (now - cleaned.headD 0)
    · rw [if_pos h2]; exact le_of_lt h2
    · rw [if_neg h2]
  · rw [if_neg h]

/-- When the window is at capacity and every kept entry is inside the
window, the wait pushes the clock to one full window past the oldest kept
entry. -/
theorem waitFor_trigger (limit : ℕ) (hl : 1 ≤ limit) (window : α)
    (cleaned : List α) (now : α)
    (hmem : ∀ x ∈ cleaned, now - window < x)
    (htr : limit ≤ cleaned.length) :
    cleaned.headD 0 + window ≤ now + waitFor limit window cleaned now := by
  obtain ⟨hd, tl, heq⟩ : ∃ hd tl, cleaned = hd :: tl := by
    cases h : cleaned with
    | nil => rw [h] at htr; simp at htr; omega
    | cons a b => exact ⟨a, b, rfl⟩
  subst heq
  have hhd : now - window < hd := hmem hd (by simp)
  have hwt : 0 < window - (now - hd) := sub_pos.mpr (sub_lt_comm.mp hhd)
  unfold waitFor
  rw [if_pos htr]
  dsimp only [List.headD_cons]
  rw [if_pos hwt]
  have heq2 : now + (window - (now - hd)) = hd + window := by ring
  rw [heq2]

/-- Appending a freshly recorded timestamp preserves the window bound,
provided the new timestamp is no earlier than the clock and, when the
window was at capacity, lies a full window past the oldest kept entry. -/
theorem window_append (n : ℕ) (hn : 1 ≤ n) (w : α) (hist : List α)
    (nowp t : α)
    (hle : ∀ x ∈ hist, x ≤ nowp)
    (hwin : ∀ T, countWindow hist w T ≤ n)
    (hnow : nowp ≤ t)
    (htrig : n ≤ (hist.filter (fun x => decide (nowp - w < x))).length →
      (hist.filter (fun x => decide (nowp - w < x))).headD 0 + w ≤ t) :
    ∀ T, countWindow (hist ++ [t]) w T ≤ n := by
  intro T
  rw [countWindow, List.countP_append]
  by_cases hT : (T - w < t ∧ t ≤ T)
  · have hcount1 : List.countP (fun x => decide (T - w < x ∧ x ≤ T)) [t] = 1 := by
      simp [List.countP_cons, hT]
    rw [hcount1]
    have hTt : t ≤ T := hT.2
    have hTw : nowp - w ≤ T - w := sub_le_sub_right (le_trans hnow hTt) w
    have hmono1 : ∀ x ∈ hist,
        decide (T - w < x ∧ x ≤ T) = true → decide (nowp - w < x) = true := by
      intro x _ hpx
      rw [decide_eq_true_eq] at hpx ⊢
      exact lt_of_le_of_lt hTw hpx.1
    have hmlen : (hist.filter (fun x => decide (nowp - w < x))).length ≤ n := by
      have hc := hwin nowp
      rw [countWindow] at hc
      rw [← List.countP_eq_length_filter]
      refine le_trans (List.countP_mono_left ?_) hc
      intro x hx hpx
      rw [decide_eq_true_eq] at hpx ⊢
      exact ⟨hpx, hle x hx⟩
    by_cases htr2 : n ≤ (hist.filter (fun x => decide (nowp - w < x))).length
    · have hm_n : (hist.filter (fun x => decide (nowp - w < x))).length = n :=
        le_antisymm hmlen htr2
      have hheadle := htrig htr2
      obtain ⟨hd, tl, hmeq⟩ : ∃ hd tl,
          hist.filter (fun x => decide (nowp - w < x)) = hd :: tl := by
        cases hme : hist.filter (fun x => decide (nowp - w < x)) with
        | nil => rw [hme] at hm_n; simp at hm_n; omega
        | cons a b => exact ⟨a, b, rfl⟩
      rw [hmeq] at hheadle
      dsimp only [List.headD_cons] at hheadle
      have hhdT : hd ≤ T - w :=
        le_sub_iff_add_le.mpr (le_trans hheadle hTt)
      have hstep1 : List.countP (fun x => decide (T - w < x ∧ x ≤ T)) hist ≤
          List.countP
            (fun x => decide (hd < x) && decide (nowp - w < x)) hist := by
        apply List.countP_mono_left
        intro x _ hpx
        rw [decide_eq_true_eq] at hpx
        simp only [Bool.and_eq_true, decide_eq_true_eq]
        exact ⟨lt_of_le_of_lt hhdT hpx.1, lt_of_le_of_lt hTw hpx.1⟩
      have hstep2 : List.countP
          (fun x => decide (hd < x) && decide (nowp - w < x)) hist =
          ((hist.filter (fun x => decide (nowp - w < x))).filter
            (fun x => decide (hd < x))).length := by
        rw [List.countP_eq_length_filter, List.filter_filter]
      have hstep3 : ((hist.filter (fun x => decide (nowp - w < x))).filter
          (fun x => decide (hd < x))).length ≤ tl.length := by
        rw [hmeq, List.filter_cons]
        simpa using List.length_filter_le (fun x => decide (hd < x)) tl
      have htl : tl.length + 1 = n := by
        rw [← hm_n, hmeq]; rfl
      omega
    · have hb : List.countP (fun x => decide (T - w < x ∧ x ≤ T)) hist ≤
          (hist.filter (fun x => decide (nowp - w < x))).length := by
        rw [← List.countP_eq_length_filter]
        exact List.countP_mono_left hmono1
      omega
  · have hcount0 : List.countP (fun x => decide (T - w < x ∧ x ≤ T)) [t] = 0 := by
      simp [List.countP_cons, hT]
    rw [hcount0]
    have := hwin T
    rw [countWindow] at this
    omega

/-- Sixty and thirty-six hundred are positive in any such ring. -/
theorem window_pos : (0 : α) < 60 ∧ (0 : α) < 3600 := by
  constructor <;> norm_num

/-- The clock never moves backwards across a wait. -/
theorem now_le_recordedTime (cfg : RLConfig) (s : RLState α) :
    s.now ≤ recordedTime cfg s := by
  unfold recordedTime
  have a1 := waitFor_nonneg (α := α) cfg.requests_per_minute 60
    (cleanedMin s) s.now
  have a2 := waitFor_nonneg (α := α) cfg.requests_per_hour 3600
    (cleanedHr s) s.now
  calc s.now ≤ s.now + waitFor cfg.requests_per_minute 60
        (cleanedMin s) s.now := le_add_of_nonneg_right a1
    _ ≤ _ := le_add_of_nonneg_right a2

/-- Advancing the caller's clock preserves the invariant. -/
theorem advanceBy_inv (cfg : RLConfig) (s : RLState α) (g : α) (hg : 0 ≤ g)
    (hinv : RLInv cfg s) : RLInv cfg (advanceBy s g) := by
  obtain ⟨hle, ⟨c1, hc1, hm⟩, ⟨c2, hc2, hh⟩, hw1, hw2⟩ := hinv
  refine ⟨?_, ⟨c1, ?_, hm⟩, ⟨c2, ?_, hh⟩, hw1, hw2⟩
  · intro x hx; exact le_trans (hle x hx) (le_add_of_nonneg_right hg)
  · exact le_trans hc1 (le_add_of_nonneg_right hg)
  · exact le_trans hc2 (le_add_of_nonneg_right hg)

/-- Under the invariant, the pruned minute list is the history filtered
at the current clock. -/
theorem cleanedMin_eq (cfg : RLConfig) (s : RLState α) (hinv : RLInv cfg s) :
    cleanedMin s = s.hist.filter (fun t => decide (s.now - 60 < t)) := by
  obtain ⟨_, ⟨c1, hc1, hm⟩, _, _, _⟩ := hinv
  rw [cleanedMin, hm, List.filter_filter]
  apply List.filter_congr
  intro a _
  by_cases hx : s.now - 60 < a
  · have h2 : c1 - 60 < a := lt_of_le_of_lt (sub_le_sub_right hc1 60) hx
    simp [hx, h2]
  · simp [hx]

/-- Under the invariant, the pruned hour list is the history filtered at
the current clock. -/
theorem cleanedHr_eq (cfg : RLConfig) (s : RLState α) (hinv : RLInv cfg s) :
    cleanedHr s = s.hist.filter (fun t => decide (s.now - 3600 < t)) := by
  obtain ⟨_, _, ⟨c2, hc2, hh⟩, _, _⟩ := hinv
  rw [cleanedHr, hh, List.filter_filter]
  apply List.filter_congr
  intro a _
  by_cases hx : s.now - 3600 < a
  · have h2 : c2 - 3600 < a := lt_of_le_of_lt (sub_le_sub_right hc2 3600) hx
    simp [hx, h2]
  · simp [hx]

/-- One wait_if_needed call preserves the invariant. -/
theorem waitIfNeeded_inv (cfg : RLConfig) (s : RLState α)
    (h1 : 1 ≤ cfg.requests_per_minute) (h2 : 1 ≤ cfg.requests_per_hour)
    (hinv : RLInv cfg s) : RLInv cfg (waitIfNeeded cfg s).1 := by
  have hle := hinv.le_now
  have hwm := hinv.win_minute
  have hwh := hinv.win_hour
  have hmc := cleanedMin_eq cfg s hinv
  have hhc := cleanedHr_eq cfg s hinv
  have hnt := now_le_recordedTime cfg s
  have hminT : s.now - 60 < recordedTime cfg s :=
    lt_of_lt_of_le (sub_lt_self s.now (window_pos (α := α)).1) hnt
  have hhrT : s.now - 3600 < recordedTime cfg s :=
    lt_of_lt_of_le (sub_lt_self s.now (window_pos (α := α)).2) hnt
  have htrig1 : cfg.requests_per_minute ≤
      (s.hist.filter (fun x => decide (s.now - 60 < x))).length →
      (s.hist.filter (fun x => decide (s.now - 60 < x))).headD 0 + 60 ≤
        recordedTime cfg s := by
    intro htr
    rw [← hmc] at htr ⊢
    have hmem : ∀ x ∈ cleanedMin s, s.now - 60 < x := by
      intro x hx
      have := List.of_mem_filter hx
      simpa using this
    have hwt := waitFor_trigger cfg.requests_per_minute h1 60 (cleanedMin s)
      s.now hmem htr
    refine le_trans hwt ?_
    unfold recordedTime
    exact le_add_of_nonneg_right (waitFor_nonneg ..)
  have htrig2 : cfg.requests_per_hour ≤
      (s.hist.filter (fun x => decide (s.now - 3600 < x))).length →
      (s.hist.filter (fun x => decide (s.now - 3600 < x))).headD 0 + 3600 ≤
        recordedTime cfg s := by
    intro htr
    rw [← hhc] at htr ⊢
    have hmem : ∀ x ∈ cleanedHr s, s.now - 3600 < x := by
      intro x hx
      have := List.of_mem_filter hx
      simpa using this
    have hwt := waitFor_trigger cfg.requests_per_hour h2 3600 (cleanedHr s)
      s.now hmem htr
    refine le_trans hwt ?_
    unfold recordedTime
    have heq : s.now + waitFor cfg.requests_per_minute 60 (cleanedMin s) s.now +
        waitFor cfg.requests_per_hour 3600 (cleanedHr s) s.now =
        s.now + waitFor cfg.requests_per_hour 3600 (cleanedHr s) s.now +
        waitFor cfg.requests_per_minute 60 (cleanedMin s) s.now := by ring
    rw [heq]
    exact le_add_of_nonneg_right (waitFor_nonneg ..)
  have hstate : (waitIfNeeded cfg s).1 =
      ⟨cleanedMin s ++ [recordedTime cfg s],
        cleanedHr s ++ [recordedTime cfg s],
        recordedTime cfg s, s.hist ++ [recordedTime cfg s]⟩ := rfl
  rw [hstate]
  refine ⟨?_, ⟨s.now, hnt, ?_⟩, ⟨s.now, hnt, ?_⟩, ?_, ?_⟩
  · intro x hx
    rcases List.mem_append.mp hx with hx1 | hx2
    · exact le_trans (hle x hx1) hnt
    · rw [List.mem_singleton.mp hx2]
  · show cleanedMin s ++ [recordedTime cfg s] =
      (s.hist ++ [recordedTime cfg s]).filter
        (fun t => decide (s.now - 60 < t))
    rw [List.filter_append, ← hmc]
    congr 1
    simp [hminT]
  · show cleanedHr s ++ [recordedTime cfg s] =
      (s.hist ++ [recordedTime cfg s]).filter
        (fun t => decide (s.now - 3600 < t))
    rw [List.filter_append, ← hhc]
    congr 1
    simp [hhrT]
  · exact window_append cfg.requests_per_minute h1 60 s.hist s.now
      (recordedTime cfg s) hle hwm hnt htrig1
  · exact window_append cfg.requests_per_hour h2 3600 s.hist s.now
      (recordedTime cfg s) hle hwh hnt htrig2

/-- The invariant holds initially. -/
theorem initRL_inv (cfg : RLConfig) (T0 : α) : RLInv cfg (initRL T0) := by
  refine ⟨?_, ⟨T0, le_refl _, rfl⟩, ⟨T0, le_refl _, rfl⟩, ?_, ?_⟩ <;>
    simp [initRL, countWindow]

/-- The invariant is preserved along any run with nonnegative gaps. -/
theorem runCalls_inv (cfg : RLConfig)
    (h1 : 1 ≤ cfg.requests_per_minute) (h2 : 1 ≤ cfg.requests_per_hour) :
    ∀ (gaps : List α) (s : RLState α), (∀ g ∈ gaps, 0 ≤ g) →
      RLInv cfg s → RLInv cfg (runCalls cfg s gaps) := by
  intro gaps
  induction gaps with
  | nil => intro s _ h; exact h
  | cons g gs ih =>
    intro s hg hinv
    rw [runCalls]
    exact ih _ (fun x hx => hg x (List.mem_cons_of_mem g hx))
      (waitIfNeeded_inv cfg _ h1 h2
        (advanceBy_inv cfg s g (hg g (List.mem_cons_self g gs)) hinv))

/-- The state after j quick calls all at clock T0: j copies of T0 in both
lists and in the history. -/
def uniformState (j : ℕ) (T0 : α) : RLState α :=
  ⟨List.replicate j T0, List.replicate j T0, T0, List.replicate j T0⟩

/-- A zero gap leaves the state unchanged before the call. -/
theorem advanceBy_zero (s : RLState α) : advanceBy s 0 = s := by
  simp [advanceBy]

/-- Pruning removes nothing when every entry is the current clock. -/
theorem cleaned_uniform (j : ℕ) (T0 w : α) (hw : 0 < w) :
    (List.replicate j T0).filter (fun t => decide (T0 - w < t)) =
      List.replicate j T0 := by
  apply List.filter_eq_self.mpr
  intro a ha
  rw [List.eq_of_mem_replicate ha]
  simp only [decide_eq_true_eq]
  exact sub_lt_self T0 hw

/-- Below capacity no wait is computed. -/
theorem waitFor_below (limit : ℕ) (window : α) (cleaned : List α) (now : α)
    (h : cleaned.length < limit) :
    waitFor limit window cleaned now = 0 := by
  unfold waitFor
  rw [if_neg (by omega)]

/-- One quick call below both capacities records the same clock and
sleeps zero. -/
theorem waitIfNeeded_uniform (cfg : RLConfig) (j : ℕ) (T0 : α)
    (hj1 : j < cfg.requests_per_minute) (hj2 : j < cfg.requests_per_hour) :
    waitIfNeeded cfg (uniformState j T0) =
      (uniformState (j + 1) T0, 0) := by
  have hw1 : waitFor cfg.requests_per_minute (60 : α)
      (List.replicate j T0) T0 = 0 :=
    waitFor_below _ _ _ _ (by rw [List.length_replicate]; omega)
  have hw2 : waitFor cfg.requests_per_hour (3600 : α)
      (List.replicate j T0) T0 = 0 :=
    waitFor_below _ _ _ _ (by rw [List.length_replicate]; omega)
  unfold waitIfNeeded recordedTime cleanedMin cleanedHr uniformState
  dsimp only
  rw [cleaned_uniform j T0 60 (window_pos (α := α)).1,
    cleaned_uniform j T0 3600 (window_pos (α := α)).2, hw1, hw2]
  simp [List.replicate_succ']

/-- Waits of a concatenated schedule split at the intermediate state. -/
theorem waitsOf_append (cfg : RLConfig) (s : RLState α) (gs1 gs2 : List α) :
    waitsOf cfg s (gs1 ++ gs2) =
      waitsOf cfg s gs1 ++ waitsOf cfg (runCalls cfg s gs1) gs2 := by
  induction gs1 generalizing s with
  | nil => rw [waitsOf, runCalls]; rfl
  | cons g gs ih =>
    rw [List.cons_append, waitsOf, waitsOf, runCalls, ih, List.cons_append]

/-- k quick calls below capacity leave the limiter with k copies of the
start clock and sleep zero each time. -/
theorem runCalls_uniform (cfg : RLConfig) (T0 : α) :
    ∀ (k j : ℕ), j + k ≤ cfg.requests_per_minute →
      cfg.requests_per_minute ≤ cfg.requests_per_hour →
      runCalls cfg (uniformState j T0) (List.replicate k (0 : α)) =
        uniformState (j + k) T0 ∧
      waitsOf cfg (uniformState j T0) (List.replicate k (0 : α)) =
        List.replicate k 0 := by
  intro k
  induction k with
  | zero =>
    intro j _ _
    exact ⟨by rw [List.replicate, runCalls, Nat.add_zero],
      by rw [List.replicate, waitsOf]⟩
  | succ n ih =>
    intro j hj hNM
    have hj1 : j < cfg.requests_per_minute := by omega
    have hj2 : j < cfg.requests_per_hour := by omega
    have hstep := waitIfNeeded_uniform cfg j T0 hj1 hj2
    have hrep : List.replicate (n + 1) (0 : α) = 0 :: List.replicate n 0 :=
      List.replicate_succ ..
    have harith : j + 1 + n = j + (n + 1) := by omega
    refine ⟨?_, ?_⟩
    · rw [hrep, runCalls, advanceBy_zero, hstep]
      dsimp only
      rw [(ih (j + 1) (by omega) hNM).1, harith]
    · rw [hrep, waitsOf, advanceBy_zero, hstep]
      dsimp only
      rw [(ih (j + 1) (by omega) hNM).2]

/-- At minute capacity, a quick call sleeps exactly the full window:
sixty seconds until the oldest recorded timestamp ages out. -/
theorem waitIfNeeded_at_capacity (cfg : RLConfig) (T0 : α)
    (hN : 1 ≤ cfg.requests_per_minute)
    (hM : cfg.requests_per_minute < cfg.requests_per_hour) :
    (waitIfNeeded cfg (uniformState cfg.requests_per_minute T0)).2 = 60 := by
  have hhead : (List.replicate cfg.requests_per_minute T0).headD 0 = T0 := by
    obtain ⟨m, hm⟩ : ∃ m, cfg.requests_per_minute = m + 1 :=
      ⟨cfg.requests_per_minute - 1, by omega⟩
    rw [hm, List.replicate_succ]
    rfl
  have hw1 : waitFor cfg.requests_per_minute (60 : α)
      (List.replicate cfg.requests_per_minute T0) T0 = 60 := by
    unfold waitFor
    rw [if_pos (by rw [List.length_replicate])]
    dsimp only
    rw [hhead, sub_self, sub_zero, if_pos (window_pos (α := α)).1]
  have hw2 : waitFor cfg.requests_per_hour (3600 : α)
      (List.replicate cfg.requests_per_minute T0) T0 = 0 :=
    waitFor_below _ _ _ _ (by rw [List.length_replicate]; omega)
  unfold waitIfNeeded cleanedMin cleanedHr uniformState
  dsimp only
  rw [cleaned_uniform cfg.requests_per_minute T0 60 (window_pos (α := α)).1,
    cleaned_uniform cfg.requests_per_minute T0 3600 (window_pos (α := α)).2,
    hw1, hw2, add_zero]

/-- C5: for a limiter configured with at least one request per minute and
per hour, along every schedule of calls with nonnegative clock gaps, no
trailing sixty-second window ever contains more than the per-minute
ceiling of recorded timestamps, and no trailing hour window more than the
per-hour ceiling; concretely, a full minute quota of quick calls from a
fresh limiter sleeps zero every time, while one further quick call sleeps
exactly sixty seconds, the time until the oldest recorded timestamp ages
out of the minute window, before recording itself. -/
theorem rate_limiter_window_ceiling (α : Type) [LinearOrderedCommRing α]
    (cfg : RLConfig) (T0 : α) :
    (1 ≤ cfg.requests_per_minute → 1 ≤ cfg.requests_per_hour →
      ∀ gaps : List α, (∀ g ∈ gaps, 0 ≤ g) → ∀ T,
        countWindow (runCalls cfg (initRL T0) gaps).hist 60 T ≤
          cfg.requests_per_minute ∧
        countWindow (runCalls cfg (initRL T0) gaps).hist 3600 T ≤
          cfg.requests_per_hour) ∧
    (cfg.requests_per_minute ≤ cfg.requests_per_hour →
      waitsOf cfg (initRL T0)
        (List.replicate cfg.requests_per_minute (0 : α)) =
        List.replicate cfg.requests_per_minute 0) ∧
    (1 ≤ cfg.requests_per_minute →
      cfg.requests_per_minute < cfg.requests_per_hour →
      waitsOf cfg (initRL T0)
        (List.replicate (cfg.requests_per_minute + 1) (0 : α)) =
        List.replicate cfg.requests_per_minute 0 ++ [60]) := by
  have h0 : initRL T0 = uniformState 0 (α := α) T0 := rfl
  refine ⟨fun h1 h2 gaps hg T => ?_, fun hNM => ?_, fun h1 hNM => ?_⟩
  · have hinv := runCalls_inv cfg h1 h2 gaps (initRL T0) hg (initRL_inv cfg T0)
    exact ⟨hinv.win_minute T, hinv.win_hour T⟩
  · rw [h0]
    have := (runCalls_uniform cfg T0 cfg.requests_per_minute 0 (by omega) hNM).2
    simpa using this
  · have hNM' : cfg.requests_per_minute ≤ cfg.requests_per_hour :=
      le_of_lt hNM
    rw [List.replicate_succ', waitsOf_append, h0]
    have hrun := (runCalls_uniform cfg T0 cfg.requests_per_minute 0
      (by omega) hNM').1
    have hwaits := (runCalls_uniform cfg T0 cfg.requests_per_minute 0
      (by omega) hNM').2
    rw [hwaits, hrun]
    have hz : (0 : ℕ) + cfg.requests_per_minute = cfg.requests_per_minute := by
      omega
    rw [hz]
    congr 1
    rw [waitsOf, advanceBy_zero, waitsOf,
      waitIfNeeded_at_capacity cfg T0 h1 hNM]

/-- Witness for C5: a limiter allowing two requests per minute and five
per hour, driven by three quick calls from clock zero: the first two
sleep zero, the third sleeps sixty seconds; and the minute window ending
at the start never holds more than two recorded timestamps. -/
theorem rate_limiter_window_ceiling_witness :
    waitsOf ⟨2, 5⟩ (initRL (0 : ℤ)) [0, 0, 0] = [0, 0, 60] ∧
    countWindow (runCalls ⟨2, 5⟩ (initRL (0 : ℤ)) [0, 0, 0]).hist 60 0 ≤ 2 := by
  have h := rate_limiter_window_ceiling ℤ ⟨2, 5⟩ 0
  constructor
  · have h3 := h.2.2 (by decide) (by decide)
    simpa using h3
  · exact (h.1 (by decide) (by decide) [0, 0, 0] (by decide) 0).1

end ResearchAssistant
